import Mathlib

/-!
# Verification of the AQI aggregation and forecasting engine

A shallow embedding of the time-series aggregation and forecasting core of
the air-pollution dashboard backend (`app.py`), together with theorems
settling the specification claims about it.

Conventions of the embedding:
* calendar days are integers (days since the civil epoch 1970-01-01), so
  `d + 1` is the next calendar day, matching daily timestamp arithmetic;
* the calendar accessors (`year`, `month`, `dayofyear`) are computed by the
  standard civil-calendar algorithms, matching the library's datetime
  accessors;
* float quantities are modelled as exact rationals; the sample standard
  deviation (a square root) lives in `ℝ`;
* a missing (NaN) AQI cell is `Option.none`; fallible operations return
  `Option` with `none` as failure;
* the process-wide dataset cache is explicit state of type
  `Option (List Row)`, threaded through the functions that touch it;
* the external ARIMA library is an oracle parameter: a flag for its
  availability and an optional fitted-model output (`none` models every
  fit attempt raising).
-/

namespace AQI

/-! ## Calendar arithmetic (civil calendar, days since 1970-01-01) -/

/-- Day number of the civil date `(y, m, d)` relative to 1970-01-01,
by the standard civil-calendar algorithm. -/
def daysFromCivil (y m d : ℤ) : ℤ :=
  let yy := y - (if m ≤ 2 then 1 else 0)
  let era := Int.fdiv yy 400
  let yoe := yy - era * 400
  let mp := m + (if 2 < m then -3 else 9)
  let doy := Int.fdiv (153 * mp + 2) 5 + d - 1
  let doe := yoe * 365 + Int.fdiv yoe 4 - Int.fdiv yoe 100 + doy
  era * 146097 + doe - 719468

/-- Civil date `(y, m, d)` of a day number, inverse of `daysFromCivil`. -/
def civilFromDays (z : ℤ) : ℤ × ℤ × ℤ :=
  let zz := z + 719468
  let era := Int.fdiv zz 146097
  let doe := zz - era * 146097
  let yoe := Int.fdiv (doe - Int.fdiv doe 1460 + Int.fdiv doe 36524 - Int.fdiv doe 146096) 365
  let y := yoe + era * 400
  let doy := doe - (365 * yoe + Int.fdiv yoe 4 - Int.fdiv yoe 100)
  let mp := Int.fdiv (5 * doy + 2) 153
  let d := doy - Int.fdiv (153 * mp + 2) 5 + 1
  let m := mp + (if mp < 10 then 3 else -9)
  (y + (if m ≤ 2 then 1 else 0), m, d)

/-- Calendar year of a day number (the `.dt.year` accessor). -/
def yearOf (z : ℤ) : ℤ := (civilFromDays z).1

/-- Calendar month of a day number (the `.dt.month` accessor). -/
def monthOf (z : ℤ) : ℤ := (civilFromDays z).2.1

/-- Ordinal day of the year, 1-based (the `.dayofyear` accessor). -/
def dayOfYearOf (z : ℤ) : ℤ := z - daysFromCivil (yearOf z) 1 1 + 1

/-! ## Elementary statistics on rational lists -/

/-- Arithmetic mean of a list of rationals (0 on the empty list; it is only
used on nonempty lists, as the library's `mean` is). -/
def mean (l : List ℚ) : ℚ := l.sum / (l.length : ℚ)

/-- Sample variance with denominator `n - 1` (the library's default
`ddof = 1`); only meaningful for lists of length at least 2. -/
def sampleVar (l : List ℚ) : ℚ :=
  ((l.map fun x => (x - mean l) ^ 2).sum) / ((l.length : ℚ) - 1)

/-- Sample standard deviation (the `.std()` of a series window). -/
noncomputable def sampleStd (l : List ℚ) : ℝ := Real.sqrt (sampleVar l)

/-- Slope of the ordinary-least-squares line through the points
`(0, l₀), (1, l₁), …` — the degree-1 polynomial fit's leading coefficient. -/
def olsSlope (l : List ℚ) : ℚ :=
  let n : ℚ := l.length
  let xs : List ℚ := (List.range l.length).map fun (k : ℕ) => (k : ℚ)
  let sx := xs.sum
  let sy := l.sum
  let sxy := ((xs.zip l).map fun p => p.1 * p.2).sum
  let sxx := (xs.map fun x => x ^ 2).sum
  (n * sxy - sx * sy) / (n * sxx - sx ^ 2)

/-- The last `k` elements of a list (the `.tail(k)` of a series). -/
def lastN (k : ℕ) (l : List ℚ) : List ℚ := l.drop (l.length - k)

/-! ## Data model -/

/-- One record of the canonical (normalized) table: a city label, a calendar
day, and an AQI reading that may be missing (`none` models NaN). -/
structure Row where
  city : String
  date : ℤ
  aqi : Option ℚ
deriving DecidableEq

/-- Dataset normalization performed by the loader after column detection:
rows with a missing AQI are dropped, and the table is sorted by
city then date (`dropna` on the AQI column followed by `sort_values`). -/
def normalizeTable (raw : List Row) : List Row :=
  (raw.filter fun r => r.aqi.isSome).insertionSort
    fun a b => a.city < b.city ∨ (a.city = b.city ∧ a.date ≤ b.date)

/-- The process-wide dataset cache: `none` before the first load. -/
abbrev Cache := Option (List Row)

/-- `load_full_dataset`: return the cached table if present, otherwise
normalize the raw file contents, store the result in the cache, and
return it. -/
def load_full_dataset (raw : List Row) (s : Cache) : Cache × List Row :=
  match s with
  | some df => (some df, df)
  | none => (some (normalizeTable raw), normalizeTable raw)

/-! ## Series Preparer (`load_and_preprocess_data`) -/

/-- Strip leading and trailing whitespace (the `str.strip()` primitive). -/
def strTrim (s : String) : String :=
  ⟨((s.data.dropWhile Char.isWhitespace).reverse.dropWhile Char.isWhitespace).reverse⟩

/-- Lower-case every character (the `str.lower()` primitive). -/
def strLower (s : String) : String := ⟨s.data.map Char.toLower⟩

/-- Case-insensitive, whitespace-trimmed city comparison
(`str.strip().str.lower()` on both sides). -/
def cityMatch (r : Row) (c : String) : Bool :=
  strLower (strTrim r.city) == strLower (strTrim c)

/-- Whether the city filter is applied: the request must carry a city that
is truthy (nonempty) and differs from the `"All Cities"` sentinel. -/
def shouldFilter : Option String → Bool
  | none => false
  | some c => !(c == "") && !(c == "All Cities")

/-- Most recent value recorded for a city in the accumulator. -/
def lookupCity (acc : List (String × ℚ)) (c : String) : Option ℚ :=
  match acc.find? fun p => p.1 == c with
  | some p => some p.2
  | none => none

/-- Forward fill of the AQI column within each city group
(`groupby('city')['aqi'].ffill()`). -/
def ffillCity (acc : List (String × ℚ)) : List Row → List Row
  | [] => []
  | r :: rs =>
    match r.aqi with
    | some v => r :: ffillCity ((r.city, v) :: acc) rs
    | none => { r with aqi := lookupCity acc r.city } :: ffillCity acc rs

/-- Forward fill of the AQI column across the whole table. -/
def ffillGlobal (acc : Option ℚ) : List Row → List Row
  | [] => []
  | r :: rs =>
    match r.aqi with
    | some v => r :: ffillGlobal (some v) rs
    | none => { r with aqi := acc } :: ffillGlobal acc rs

/-- Backward fill of the AQI column (`.bfill()` applied to the already
group-forward-filled series, hence not grouped). -/
def bfillGlobal (l : List Row) : List Row := (ffillGlobal none l.reverse).reverse

/-- Fill any remaining missing AQI with the column mean
(`fillna(df['aqi'].mean())`; when every value is missing the mean is
itself missing and nothing is filled). -/
def fillnaMean (l : List Row) : List Row :=
  let vs := l.filterMap fun r => r.aqi
  if vs.isEmpty then l
  else l.map fun r => { r with aqi := some (r.aqi.getD (mean vs)) }

/-- The full gap-filling applied by the preparer: per-city forward fill,
then backward fill, then mean fill. -/
def applyFill (l : List Row) : List Row := fillnaMean (bfillGlobal (ffillCity [] l))

/-- Keep the first occurrence per `(city, date)` key
(`drop_duplicates(subset=['city','date'], keep='first')`). -/
def dedupKey (seen : List (String × ℤ)) : List Row → List Row
  | [] => []
  | r :: rs =>
    if (r.city, r.date) ∈ seen then dedupKey seen rs
    else r :: dedupKey ((r.city, r.date) :: seen) rs

/-- Final sort of the prepared table by date (`sort_values('date')`). -/
def sortByDate (l : List Row) : List Row :=
  l.insertionSort fun a b => a.date ≤ b.date

/-- Deduplicate then sort: the tail of the preparer after gap filling. -/
def finalize (l : List Row) : List Row := sortByDate (dedupKey [] l)

/-- The value returned by the preparer for a loaded table `df` and an
optional requested city: `none` models the no-data-for-city failure. -/
def preprocessResult (df : List Row) (city : Option String) : Option (List Row) :=
  if shouldFilter city then
    let fdf := df.filter fun r => cityMatch r (city.getD "")
    if fdf.isEmpty then none else some (finalize (applyFill fdf))
  else some (finalize (applyFill df))

/-- `load_and_preprocess_data` as a state transformer over the cache.
With a city filter the filtered table is an explicit copy, so the fills
touch only the copy; without a filter the AQI column assignments write
through to the very table held by the cache, so the resulting state
carries the filled table. -/
def load_and_preprocess_data (raw : List Row) (city : Option String) (s : Cache) :
    Cache × Option (List Row) :=
  let p := load_full_dataset raw s
  if shouldFilter city then
    (p.1, preprocessResult p.2 city)
  else
    (some (applyFill p.2), preprocessResult p.2 city)

/-! ## Aggregator -/

/-- `calculate_daily_aqi`: group by calendar date, average the AQI of each
group (skipping missing cells, as the library mean does), one output row
per distinct date, keys sorted ascending. -/
def calculate_daily_aqi (df : List Row) : List (ℤ × ℚ) :=
  (((df.map fun r => r.date).dedup).insertionSort fun a b => a ≤ b).map
    fun d => (d, mean ((df.filter fun r => r.date == d).filterMap fun r => r.aqi))

/-- `calculate_monthly_aqi`: group by `(year, month)`, average the AQI of
each group, date the result on the first of the month, sort by date. -/
def calculate_monthly_aqi (df : List Row) : List (ℤ × ℚ) :=
  ((((df.map fun r => (yearOf r.date, monthOf r.date)).dedup).map fun k =>
      (daysFromCivil k.1 k.2 1,
        mean ((df.filter fun r =>
          (yearOf r.date, monthOf r.date) == k).filterMap fun r => r.aqi))).insertionSort
    fun a b => a.1 ≤ b.1)

/-- The daily aggregation as seen by a request handler: it reads no global
state and writes none, so the cache passes through untouched. -/
def aggDaily (s : Cache) (df : List Row) : Cache × List (ℤ × ℚ) :=
  (s, calculate_daily_aqi df)

/-- The monthly aggregation as seen by a request handler: the year/month
helper columns are added to a fresh copy of the input, so the cache and
the input table pass through untouched. -/
def aggMonthly (s : Cache) (df : List Row) : Cache × List (ℤ × ℚ) :=
  (s, calculate_monthly_aqi df)

/-! ## Forecast Engine -/

/-- Mean of the readings observed on one grid day, `none` when the day has
no reading (the per-bucket value of `resample('D').mean()`). -/
def gridVal (rows : List (ℤ × ℚ)) (g : ℤ) : Option ℚ :=
  let hits := (rows.filter fun p => p.1 == g).map fun p => p.2
  if hits.isEmpty then none else some (mean hits)

/-- Forward fill on an optional-valued series, seeded with `acc`. -/
def ffillOpt (acc : Option ℚ) : List (Option ℚ) → List (Option ℚ)
  | [] => []
  | x :: xs =>
    match x with
    | some v => some v :: ffillOpt (some v) xs
    | none => acc :: ffillOpt acc xs

/-- Backward fill on an optional-valued series. -/
def bfillOpt (l : List (Option ℚ)) : List (Option ℚ) := (ffillOpt none l.reverse).reverse

/-- Regularization of a daily series: reindex onto the gap-free daily grid
spanning the series' min..max date, averaging same-day readings, then
forward fill and backward fill (`resample('D').mean().ffill().bfill()`).
The `getD 0` is never reached: for a nonempty input every grid cell is
filled (see `regularize_snd_eq`). -/
def regularize (rows : List (ℤ × ℚ)) : List (ℤ × ℚ) :=
  match rows.map Prod.fst with
  | [] => []
  | d :: ds =>
    let lo := ds.foldl min d
    let hi := ds.foldl max d
    let grid := (List.range ((hi - lo).toNat + 1)).map fun (k : ℕ) => lo + (k : ℤ)
    let filled := bfillOpt (ffillOpt none (grid.map fun g => gridVal rows g))
    grid.zip (filled.map fun o => o.getD 0)

/-- Last date of the regularized grid (`df_ts.index[-1]`). -/
def lastDate (reg : List (ℤ × ℚ)) : ℤ := (reg.map Prod.fst).getLastD 0

/-- The last `min(7, N)` regularized values, over which the recent mean and
standard deviation are taken. -/
def recentWindow (reg : List (ℤ × ℚ)) : List ℚ :=
  lastN (min 7 reg.length) (reg.map fun p => p.2)

/-- Moving-average level of the last up-to-7 regularized days. -/
def recentMean (reg : List (ℤ × ℚ)) : ℚ := mean (recentWindow reg)

/-- The last `min(30, N)` regularized values, over which the trend is fit. -/
def trendWindow (reg : List (ℤ × ℚ)) : List ℚ :=
  lastN (min 30 reg.length) (reg.map fun p => p.2)

/-- Linear trend slope: the least-squares slope of the trend window against
its sequential index, or 0 when the window has fewer than 2 points. -/
def trendSlope (reg : List (ℤ × ℚ)) : ℚ :=
  if 2 ≤ (trendWindow reg).length then olsSlope (trendWindow reg) else 0

/-- The days-of-year present in the regularized series (the index of the
seasonal pattern). -/
def seasonalDoys (reg : List (ℤ × ℚ)) : List ℤ :=
  (reg.map fun p => dayOfYearOf p.1).dedup

/-- Mean regularized AQI over all history sharing one day-of-year
(one cell of `groupby('day_of_year')['aqi'].mean()`). -/
def seasonalMean (reg : List (ℤ × ℚ)) (doy : ℤ) : ℚ :=
  mean ((reg.filter fun p => dayOfYearOf p.1 == doy).map fun p => p.2)

/-- Clamp to the physical AQI range (`max(0, min(500, ·))`). -/
def clampQ (x : ℚ) : ℚ := max 0 (min 500 x)

/-- Point forecast of the deterministic fallback for step `i` (0-indexed)
landing on day `d`: recent mean plus trend, plus the 0.3-weighted seasonal
adjustment when at least a year of history exists and `d`'s day-of-year
occurs in the pattern, clamped to `[0, 500]`. -/
def fallbackBase (reg : List (ℤ × ℚ)) (i : ℕ) (d : ℤ) : ℚ :=
  let rm := recentMean reg
  let b0 := rm + trendSlope reg * ((i : ℚ) + 1)
  let b1 :=
    if 365 ≤ reg.length ∧ dayOfYearOf d ∈ seasonalDoys reg then
      b0 + (seasonalMean reg (dayOfYearOf d) - rm) * (3 / 10)
    else b0
  clampQ b1

/-- Half-width of the 95% confidence band: `1.96 * recent_std` when the
sample standard deviation is a number (window of at least 2 values),
otherwise `0.2 * recent_mean`. -/
noncomputable def confRange (reg : List (ℤ × ℚ)) : ℝ :=
  if 2 ≤ (recentWindow reg).length then 1.96 * sampleStd (recentWindow reg)
  else 0.2 * (recentMean reg : ℝ)

/-- One forecast output record. -/
structure ForecastEntry where
  date : ℤ
  aqi : ℚ
  lower : ℝ
  upper : ℝ

/-- The entry the deterministic fallback emits for step `i`: dated `i + 1`
days after the last regularized date, bounds clipped to `[0, 500]`. -/
noncomputable def fallbackEntry (reg : List (ℤ × ℚ)) (i : ℕ) : ForecastEntry :=
  let d := lastDate reg + 1 + (i : ℤ)
  let b := fallbackBase reg i d
  { date := d
    aqi := b
    lower := max 0 ((b : ℝ) - confRange reg)
    upper := min 500 ((b : ℝ) + confRange reg) }

/-- `forecast_aqi_simple`: regularize, then fail (`None`) when fewer than 7
regularized days exist, else emit the deterministic trend/seasonal
forecast for `n` steps. -/
noncomputable def forecast_aqi_simple (rows : List (ℤ × ℚ)) (n : ℕ) :
    Option (List ForecastEntry) :=
  let reg := regularize rows
  if reg.length < 7 then none
  else some ((List.range n).map fun i => fallbackEntry reg i)

/-- Output of a successfully fitted external ARIMA model: per-step point
forecast and 95% confidence bounds, exactly as the fitted model reports
them. -/
structure ArimaOut where
  mean : ℕ → ℚ
  lower : ℕ → ℚ
  upper : ℕ → ℚ

/-- `forecast_aqi_arima`: when the ARIMA library is unavailable, delegate
to the simple forecast. Otherwise regularize and fit; an empty series or a
fit failure (every order in the ladder raising, modelled by `fit = none`)
falls back to the simple forecast; a successful fit's point forecasts and
confidence bounds are emitted unmodified. -/
noncomputable def forecast_aqi_arima (available : Bool) (fit : Option ArimaOut)
    (rows : List (ℤ × ℚ)) (n : ℕ) : Option (List ForecastEntry) :=
  if available then
    let reg := regularize rows
    if reg.isEmpty then forecast_aqi_simple rows n
    else
      match fit with
      | some o =>
        some ((List.range n).map fun (i : ℕ) =>
          { date := lastDate reg + 1 + (i : ℤ)
            aqi := o.mean i
            lower := (o.lower i : ℝ)
            upper := (o.upper i : ℝ) })
      | none => forecast_aqi_simple rows n
  else forecast_aqi_simple rows n

/-- The invariant claimed for every forecast entry:
`0 ≤ lower ≤ aqi ≤ upper ≤ 500`. -/
def entryInv (e : ForecastEntry) : Prop :=
  0 ≤ e.lower ∧ e.lower ≤ (e.aqi : ℝ) ∧ (e.aqi : ℝ) ≤ e.upper ∧ e.upper ≤ 500

/-- A consecutive daily series with one reading per day: days `0 .. N-1`,
all with value 100. -/
def rowsConst (N : ℕ) : List (ℤ × ℚ) :=
  (List.range N).map fun (i : ℕ) => ((i : ℤ), (100 : ℚ))

/-! ## General lemmas about folds, fills and the regularized grid -/

theorem foldl_min_le_init {α : Type} [LinearOrder α] (d : α) (l : List α) :
    l.foldl min d ≤ d := by
  induction l generalizing d with
  | nil => simp
  | cons a l ih => exact le_trans (ih (min d a)) (min_le_left d a)

theorem le_foldl_max_init {α : Type} [LinearOrder α] (d : α) (l : List α) :
    d ≤ l.foldl max d := by
  induction l generalizing d with
  | nil => simp
  | cons a l ih => exact le_trans (le_max_left d a) (ih (max d a))

theorem le_foldl_max_of_mem {α : Type} [LinearOrder α] {x : α} {l : List α} (d : α)
    (hx : x ∈ l) : x ≤ l.foldl max d := by
  induction l generalizing d with
  | nil => cases hx
  | cons a l ih =>
    rcases List.mem_cons.1 hx with rfl | hx
    · exact le_trans (le_max_right d x) (le_foldl_max_init _ l)
    · exact ih (max d a) hx

theorem foldl_max_le {α : Type} [LinearOrder α] {m d : α} {l : List α} (hd : d ≤ m)
    (h : ∀ x ∈ l, x ≤ m) : l.foldl max d ≤ m := by
  induction l generalizing d with
  | nil => simpa using hd
  | cons a l ih =>
    exact ih (max_le hd (h a (List.mem_cons_self a l))) fun x hx => h x (List.mem_cons_of_mem a hx)

theorem foldl_min_eq_init {α : Type} [LinearOrder α] {d : α} {l : List α}
    (h : ∀ x ∈ l, d ≤ x) : l.foldl min d = d := by
  induction l with
  | nil => rfl
  | cons a l ih =>
    have ha : min d a = d := min_eq_left (h a (List.mem_cons_self a l))
    simpa [ha] using ih fun x hx => h x (List.mem_cons_of_mem a hx)

theorem ffillOpt_length (acc : Option ℚ) (l : List (Option ℚ)) :
    (ffillOpt acc l).length = l.length := by
  induction l generalizing acc with
  | nil => rfl
  | cons x xs ih => cases x <;> simp [ffillOpt, ih]

theorem bfillOpt_length (l : List (Option ℚ)) : (bfillOpt l).length = l.length := by
  simp [bfillOpt, ffillOpt_length]

theorem ffillOpt_allSome (acc : Option ℚ) (l : List (Option ℚ))
    (h : ∀ x ∈ l, x.isSome) : ffillOpt acc l = l := by
  induction l generalizing acc with
  | nil => rfl
  | cons x xs ih =>
    cases hx : x with
    | none => exact absurd (h x (List.mem_cons_self x xs)) (by simp [hx])
    | some v =>
      simp only [ffillOpt]
      exact congrArg _ (ih (some v) fun y hy => h y (List.mem_cons_of_mem x hy))

theorem bfillOpt_allSome (l : List (Option ℚ)) (h : ∀ x ∈ l, x.isSome) :
    bfillOpt l = l := by
  rw [bfillOpt, ffillOpt_allSome _ _ fun x hx => h x (List.mem_reverse.1 hx), List.reverse_reverse]

theorem mean_singleton (x : ℚ) : mean [x] = x := by
  simp [mean]

theorem mean_replicate {k : ℕ} (hk : k ≠ 0) (c : ℚ) : mean (List.replicate k c) = c := by
  have hk' : (k : ℚ) ≠ 0 := Nat.cast_ne_zero.2 hk
  simp only [mean, List.sum_replicate, List.length_replicate, smul_eq_mul]
  field_simp

theorem sampleVar_replicate (k : ℕ) (c : ℚ) : sampleVar (List.replicate k c) = 0 := by
  have : (List.replicate k c).map (fun x => (x - mean (List.replicate k c)) ^ 2) =
      List.replicate k ((c - mean (List.replicate k c)) ^ 2) := List.map_replicate ..
  rcases Nat.eq_zero_or_pos k with rfl | hk
  · simp [sampleVar]
  · rw [sampleVar, this, mean_replicate (Nat.pos_iff_ne_zero.1 hk)]
    simp

theorem zip_replicate_self {α : Type} (l : List α) (c : ℚ) :
    l.zip (List.replicate l.length c) = l.map fun x => (x, c) := by
  induction l with
  | nil => rfl
  | cons a l ih => simpa [List.replicate_succ] using ih

theorem olsSlope_replicate (k : ℕ) (c : ℚ) : olsSlope (List.replicate k c) = 0 := by
  have hlen : ((List.range k).map fun (j : ℕ) => (j : ℚ)).length = k := by simp
  have hzip : (((List.range k).map fun (j : ℕ) => (j : ℚ)).zip (List.replicate k c)).map
      (fun p : ℚ × ℚ => p.1 * p.2) = (List.range k).map fun (j : ℕ) => (j : ℚ) * c := by
    rw [show List.replicate k c =
        List.replicate ((List.range k).map fun (j : ℕ) => (j : ℚ)).length c by rw [hlen]]
    rw [zip_replicate_self, List.map_map, List.map_map]
    rfl
  have hsum : ((List.range k).map fun (j : ℕ) => (j : ℚ) * c).sum =
      ((List.range k).map fun (j : ℕ) => (j : ℚ)).sum * c := List.sum_map_mul_right ..
  simp only [olsSlope, List.length_replicate, hzip, hsum, List.sum_replicate, nsmul_eq_mul]
  rw [show (k : ℚ) * (((List.range k).map fun (j : ℕ) => (j : ℚ)).sum * c) -
      ((List.range k).map fun (j : ℕ) => (j : ℚ)).sum * ((k : ℚ) * c) = 0 by ring]
  exact zero_div _

theorem filter_rangeRows_eq {N : ℕ} (f : ℕ → ℚ) {k : ℕ} (hk : k < N) :
    ((List.range N).map fun (i : ℕ) => ((i : ℤ), f i)).filter (fun p => p.1 == (k : ℤ)) =
      [((k : ℤ), f k)] := by
  induction N with
  | zero => omega
  | succ m ih =>
    rw [List.range_succ, List.map_append, List.filter_append]
    rcases Nat.lt_succ_iff_lt_or_eq.1 hk with hk' | rfl
    · rw [ih hk']
      have hne : (((m : ℤ), f m).1 == (k : ℤ)) = false := by
        simp only [beq_eq_false_iff_ne, ne_eq]
        exact fun h => absurd (Int.ofNat_inj.1 h) (by omega)
      simp [List.filter_cons, hne]
    · have hall : ((List.range k).map fun (i : ℕ) => ((i : ℤ), f i)).filter
          (fun p => p.1 == (k : ℤ)) = [] := by
        rw [List.filter_eq_nil_iff]
        intro p hp
        rcases List.mem_map.1 hp with ⟨j, hj, rfl⟩
        simp only [beq_iff_eq]
        exact fun h => absurd (Int.ofNat_inj.1 h) (by rw [List.mem_range] at hj; omega)
      simp [hall, List.filter_cons]

theorem regularize_range (N : ℕ) (hN : N ≠ 0) (f : ℕ → ℚ) :
    regularize ((List.range N).map fun (i : ℕ) => ((i : ℤ), f i)) =
      (List.range N).map fun (i : ℕ) => ((i : ℤ), f i) := by
  obtain ⟨m, rfl⟩ := Nat.exists_eq_succ_of_ne_zero hN
  have hfst : ((List.range (m + 1)).map fun (i : ℕ) => ((i : ℤ), f i)).map Prod.fst =
      (0 : ℤ) :: (List.range m).map fun (i : ℕ) => ((i + 1 : ℕ) : ℤ) := by
    rw [List.map_map, List.range_succ_eq_map, List.map_cons, List.map_map]
    rfl
  rw [regularize, hfst]
  have hlo : ((List.range m).map fun (i : ℕ) => ((i + 1 : ℕ) : ℤ)).foldl min 0 = 0 :=
    foldl_min_eq_init fun x hx => by
      rcases List.mem_map.1 hx with ⟨j, _, rfl⟩; positivity
  have hhi : ((List.range m).map fun (i : ℕ) => ((i + 1 : ℕ) : ℤ)).foldl max 0 = (m : ℤ) := by
    rcases Nat.eq_zero_or_pos m with rfl | hm
    · simp
    · refine le_antisymm (foldl_max_le (by positivity) ?_) ?_
      · intro x hx
        rcases List.mem_map.1 hx with ⟨j, hj, rfl⟩
        rw [List.mem_range] at hj
        exact_mod_cast Nat.succ_le_of_lt hj
      · refine le_foldl_max_of_mem 0 (List.mem_map.2 ⟨m - 1, List.mem_range.2 (by omega), ?_⟩)
        rw [Nat.cast_inj]
        omega
  simp only [hlo, hhi]
  have hgrid : (List.range (((m : ℤ) - 0).toNat + 1)).map (fun (k : ℕ) => (0 : ℤ) + (k : ℤ)) =
      (List.range (m + 1)).map fun (k : ℕ) => (k : ℤ) := by
    rw [show ((m : ℤ) - 0).toNat = m by omega]
    exact List.map_congr_left fun a _ => by omega
  rw [hgrid]
  have hval : ((List.range (m + 1)).map fun (k : ℕ) => (k : ℤ)).map
      (gridVal ((List.range (m + 1)).map fun (i : ℕ) => ((i : ℤ), f i))) =
      (List.range (m + 1)).map fun (k : ℕ) => some (f k) := by
    rw [List.map_map]
    refine List.map_congr_left fun k hk => ?_
    rw [List.mem_range] at hk
    simp only [Function.comp_apply, gridVal, filter_rangeRows_eq f hk]
    simp [mean_singleton]
  rw [hval]
  have hsome : ∀ x ∈ (List.range (m + 1)).map fun (k : ℕ) => some (f k), x.isSome := by
    intro x hx
    rcases List.mem_map.1 hx with ⟨j, _, rfl⟩
    rfl
  rw [ffillOpt_allSome _ _ hsome, bfillOpt_allSome _ hsome, List.map_map]
  rw [show ((fun (o : Option ℚ) => o.getD 0) ∘ fun (k : ℕ) => some (f k)) = f from rfl]
  rw [List.zip_map']

theorem map_snd_range_const (N : ℕ) (c : ℚ) :
    ((List.range N).map fun (i : ℕ) => ((i : ℤ), c)).map (fun p : ℤ × ℚ => p.2) =
      List.replicate N c := by
  rw [List.map_map]
  rw [show ((fun p : ℤ × ℚ => p.2) ∘ fun (i : ℕ) => ((i : ℤ), c)) = fun _ => c from rfl]
  rw [List.map_const', List.length_range]

theorem lastDate_range_map (N : ℕ) (hN : N ≠ 0) (f : ℕ → ℚ) :
    lastDate ((List.range N).map fun (i : ℕ) => ((i : ℤ), f i)) = (N : ℤ) - 1 := by
  obtain ⟨m, rfl⟩ := Nat.exists_eq_succ_of_ne_zero hN
  rw [lastDate, List.map_map]
  rw [show (Prod.fst ∘ fun (i : ℕ) => ((i : ℤ), f i)) = fun (i : ℕ) => (i : ℤ) from rfl]
  rw [List.range_succ, List.map_append, List.map_singleton, List.getLastD_concat]
  push_cast
  ring

/-- When the input series is nonempty (its date column is `d :: ds`), the
last regularized date is the maximum input date. -/
theorem lastDate_regularize (rows : List (ℤ × ℚ)) (d : ℤ) (ds : List ℤ)
    (h : rows.map Prod.fst = d :: ds) :
    lastDate (regularize rows) = ds.foldl max d := by
  rw [regularize, h]
  have hle : ds.foldl min d ≤ ds.foldl max d :=
    le_trans (foldl_min_le_init d ds) (le_foldl_max_init d ds)
  set lo := ds.foldl min d with hlo
  set hi := ds.foldl max d with hhi
  have hlen : ((List.range ((hi - lo).toNat + 1)).map fun (k : ℕ) => lo + (k : ℤ)).length =
      ((bfillOpt (ffillOpt none (((List.range ((hi - lo).toNat + 1)).map
        fun (k : ℕ) => lo + (k : ℤ)).map fun g => gridVal rows g))).map
        fun o => o.getD 0).length := by
    simp [bfillOpt_length, ffillOpt_length]
  rw [lastDate, List.map_fst_zip _ _ (le_of_eq hlen)]
  rw [List.range_succ, List.map_append, List.map_singleton, List.getLastD_concat]
  omega

/-- Every input date is bounded by the last regularized date. -/
theorem fst_le_lastDate_regularize {rows : List (ℤ × ℚ)} {p : ℤ × ℚ} (hp : p ∈ rows)
    {d : ℤ} {ds : List ℤ} (h : rows.map Prod.fst = d :: ds) :
    p.1 ≤ lastDate (regularize rows) := by
  rw [lastDate_regularize rows d ds h]
  have hmem : p.1 ∈ rows.map Prod.fst := List.mem_map_of_mem Prod.fst hp
  rw [h] at hmem
  rcases List.mem_cons.1 hmem with hpd | hpds
  · exact hpd ▸ le_foldl_max_init d ds
  · exact le_foldl_max_of_mem d hpds

/-- An empty date column regularizes to the empty series. -/
theorem regularize_of_map_nil {rows : List (ℤ × ℚ)} (h : rows.map Prod.fst = []) :
    regularize rows = [] := by
  rw [regularize, h]

theorem recentWindow_length (reg : List (ℤ × ℚ)) :
    (recentWindow reg).length = min 7 reg.length := by
  simp only [recentWindow, lastN, List.length_drop, List.length_map]
  omega

theorem trendWindow_length (reg : List (ℤ × ℚ)) :
    (trendWindow reg).length = min 30 reg.length := by
  simp only [trendWindow, lastN, List.length_drop, List.length_map]
  omega

theorem forecast_aqi_simple_eq_some (rows : List (ℤ × ℚ)) (n : ℕ)
    (h : ¬ (regularize rows).length < 7) :
    forecast_aqi_simple rows n =
      some ((List.range n).map fun i => fallbackEntry (regularize rows) i) := by
  simp [forecast_aqi_simple, h]

theorem forecast_aqi_simple_none_iff (rows : List (ℤ × ℚ)) (n : ℕ) :
    forecast_aqi_simple rows n = none ↔ (regularize rows).length < 7 := by
  by_cases h : (regularize rows).length < 7 <;> simp [forecast_aqi_simple, h]

theorem regularize_rowsConst (N : ℕ) (hN : N ≠ 0) :
    regularize (rowsConst N) = rowsConst N := by
  simpa [rowsConst] using regularize_range N hN fun _ => (100 : ℚ)

theorem rowsConst_length (N : ℕ) : (rowsConst N).length = N := by
  simp [rowsConst]

/-! ## Claim C1: the forecast-entry bounds invariant -/

theorem entryInv_fallback {reg : List (ℤ × ℚ)} (h7 : 7 ≤ reg.length) (i : ℕ) :
    entryInv (fallbackEntry reg i) := by
  have hcr : 0 ≤ confRange reg := by
    rw [confRange, if_pos (by rw [recentWindow_length]; omega)]
    exact mul_nonneg (by norm_num) (Real.sqrt_nonneg _)
  have hb0 : (0 : ℚ) ≤ fallbackBase reg i (lastDate reg + 1 + (i : ℤ)) := le_max_left 0 _
  have hb500 : fallbackBase reg i (lastDate reg + 1 + (i : ℤ)) ≤ 500 :=
    max_le (by norm_num) (min_le_left _ _)
  refine ⟨le_max_left 0 _, max_le ?_ (sub_le_self _ hcr), le_min ?_ (le_add_of_nonneg_right hcr),
    min_le_left _ _⟩
  · exact_mod_cast hb0
  · exact_mod_cast hb500

/-- C1, corrected: the claimed invariant `0 ≤ lower ≤ aqi ≤ upper ≤ 500`
holds for every entry of every forecast series produced by the
deterministic fallback. (As stated over both paths the claim is false: the
ARIMA path emits the fitted model's values unclamped, see
`claim1_counterexample`.) -/
theorem claim1_fallback_bounds (rows : List (ℤ × ℚ)) (n : ℕ) (out : List ForecastEntry)
    (h : forecast_aqi_simple rows n = some out) : ∀ e ∈ out, entryInv e := by
  by_cases h7 : (regularize rows).length < 7
  · rw [forecast_aqi_simple, if_pos h7] at h
    cases h
  · rw [forecast_aqi_simple_eq_some rows n h7] at h
    cases h
    intro e he
    rcases List.mem_map.1 he with ⟨i, _, rfl⟩
    exact entryInv_fallback (le_of_not_lt h7) i

/-- C1 witness: the first entry of a one-step fallback forecast over seven
constant days satisfies the bounds invariant. -/
theorem claim1_witness : entryInv (fallbackEntry (regularize (rowsConst 7)) 0) := by
  have h7 : ¬ (regularize (rowsConst 7)).length < 7 := by
    rw [regularize_rowsConst 7 (by norm_num), rowsConst_length]
    omega
  exact claim1_fallback_bounds (rowsConst 7) 1 _ (forecast_aqi_simple_eq_some _ 1 h7)
    (fallbackEntry (regularize (rowsConst 7)) 0)
    (List.mem_map.2 ⟨0, List.mem_range.2 one_pos, rfl⟩)

/-- A fitted-model output with a negative point forecast and a negative
lower confidence bound (well within what a difference-model forecast of a
declining series reports). -/
def badFit : ArimaOut :=
  { mean := fun _ => -10, lower := fun _ => -20, upper := fun _ => 0 }

/-- C1 counterexample: with the primary model available and the fit
succeeding, the ARIMA path returns the model's values unclamped, so the
entry violates `0 ≤ lower ≤ aqi ≤ upper ≤ 500` (its aqi and lower bound
are negative); the claim is false for the primary path. -/
theorem claim1_counterexample :
    forecast_aqi_arima true (some badFit) (rowsConst 7) 1 =
      some [{ date := 7, aqi := -10, lower := -20, upper := 0 }] ∧
      ¬ entryInv { date := 7, aqi := -10, lower := -20, upper := 0 } := by
  constructor
  · have hne : (regularize (rowsConst 7)).isEmpty = false := by
      rw [regularize_rowsConst 7 (by norm_num)]
      rfl
    rw [forecast_aqi_arima]
    simp only [if_true, hne, Bool.false_eq_true, if_false]
    have hlast : lastDate (regularize (rowsConst 7)) = 6 := by
      rw [regularize_rowsConst 7 (by norm_num)]
      simpa [rowsConst] using lastDate_range_map 7 (by norm_num) fun _ => (100 : ℚ)
    rw [show List.range 1 = [0] from rfl, List.map_cons, List.map_nil, hlast]
    norm_num [badFit]
  · intro hinv
    have h1 := hinv.1
    have h2 := hinv.2.1
    rw [show ({ date := 7, aqi := -10, lower := -20, upper := 0 } : ForecastEntry).lower =
      (-20 : ℝ) from rfl] at h1
    norm_num at h1

/-! ## Claim C2: failure semantics of the forecast operation -/

/-- C2, corrected: the forecast returns no data exactly when the
deterministic fallback is reached (primary model unavailable, empty
series, or every fit attempt failing) and the regularized series has fewer
than 7 days; no model-fitting error ever surfaces. (As stated the claim is
false: with the primary model available and fitting successfully, a series
shorter than 7 days still yields a forecast, see
`claim2_counterexample`.) -/
theorem claim2_failure_iff (available : Bool) (fit : Option ArimaOut)
    (rows : List (ℤ × ℚ)) (n : ℕ) :
    forecast_aqi_arima available fit rows n = none ↔
      ((available = false ∨ regularize rows = [] ∨ fit = none) ∧
        (regularize rows).length < 7) := by
  cases available with
  | false =>
    simp [forecast_aqi_arima, forecast_aqi_simple_none_iff]
  | true =>
    rw [forecast_aqi_arima, if_pos rfl]
    by_cases hreg : (regularize rows).isEmpty
    · have hnil : regularize rows = [] := List.isEmpty_iff.1 hreg
      simp [hreg, forecast_aqi_simple_none_iff, hnil]
    · have hnil : ¬ regularize rows = [] := fun h => hreg (by simp [h])
      cases fit with
      | none =>
        simp [hreg, forecast_aqi_simple_none_iff, hnil]
      | some o =>
        simp [hreg, hnil]

/-! ## Claim C3: the deterministic fallback's per-step formula -/

/-- C3, confirmed: in the deterministic fallback, the step-`i` point
forecast is `recent_mean + trend_slope * (i+1)`, plus
`0.3 * (seasonal_pattern[day_of_year] - recent_mean)` when at least 365
regularized days exist and the target day-of-year occurs in the pattern,
clamped to `[0, 500]`; `recent_mean` and the standard deviation in the
bounds are the mean and sample standard deviation of the last `min(7, N)`
regularized values, and `lower = max(0, base - 1.96*std)`,
`upper = min(500, base + 1.96*std)`. -/
theorem claim3_fallback_step_formula (rows : List (ℤ × ℚ)) (n : ℕ)
    (out : List ForecastEntry) (h : forecast_aqi_simple rows n = some out)
    (i : ℕ) (hi : i < out.length) :
    (out.get ⟨i, hi⟩).aqi =
      clampQ (mean (lastN (min 7 (regularize rows).length)
          ((regularize rows).map fun p => p.2)) +
        trendSlope (regularize rows) * ((i : ℚ) + 1) +
        (if 365 ≤ (regularize rows).length ∧
            dayOfYearOf (lastDate (regularize rows) + 1 + (i : ℤ)) ∈
              seasonalDoys (regularize rows) then
          (3 / 10) * (seasonalMean (regularize rows)
            (dayOfYearOf (lastDate (regularize rows) + 1 + (i : ℤ))) -
            mean (lastN (min 7 (regularize rows).length)
              ((regularize rows).map fun p => p.2)))
        else 0)) ∧
    (out.get ⟨i, hi⟩).lower =
      max 0 (((out.get ⟨i, hi⟩).aqi : ℝ) - 1.96 * Real.sqrt (sampleVar
        (lastN (min 7 (regularize rows).length) ((regularize rows).map fun p => p.2)))) ∧
    (out.get ⟨i, hi⟩).upper =
      min 500 (((out.get ⟨i, hi⟩).aqi : ℝ) + 1.96 * Real.sqrt (sampleVar
        (lastN (min 7 (regularize rows).length) ((regularize rows).map fun p => p.2)))) := by
  by_cases h7 : (regularize rows).length < 7
  · rw [forecast_aqi_simple, if_pos h7] at h
    cases h
  · rw [forecast_aqi_simple_eq_some rows n h7] at h
    cases h
    have hget : (((List.range n).map fun i => fallbackEntry (regularize rows) i).get
        ⟨i, hi⟩) = fallbackEntry (regularize rows) i := by
      simp [List.get_eq_getElem]
    have hcr : confRange (regularize rows) = 1.96 * Real.sqrt (sampleVar
        (lastN (min 7 (regularize rows).length) ((regularize rows).map fun p => p.2))) := by
      rw [confRange, if_pos (by rw [recentWindow_length]; omega)]
      rfl
    rw [hget]
    refine ⟨?_, ?_, ?_⟩
    · show fallbackBase (regularize rows) i (lastDate (regularize rows) + 1 + (i : ℤ)) = _
      rw [fallbackBase]
      refine congrArg clampQ ?_
      split_ifs with hc
      · show recentMean (regularize rows) + trendSlope (regularize rows) * ((i : ℚ) + 1) +
          (seasonalMean (regularize rows) _ - recentMean (regularize rows)) * (3 / 10) = _
        rw [recentMean, recentWindow]
        ring
      · show recentMean (regularize rows) + trendSlope (regularize rows) * ((i : ℚ) + 1) = _
        rw [recentMean, recentWindow]
        ring
    · show max 0 (_ - confRange (regularize rows)) = _
      rw [hcr]
      rfl
    · show min 500 (_ + confRange (regularize rows)) = _
      rw [hcr]
      rfl

/-- C3 witness: the formula instantiated at the first step of a one-step
fallback forecast over seven constant days. -/
theorem claim3_witness :
    (((List.range 1).map fun i => fallbackEntry (regularize (rowsConst 7)) i).get
        ⟨0, by simp⟩).aqi =
      clampQ (mean (lastN (min 7 (regularize (rowsConst 7)).length)
          ((regularize (rowsConst 7)).map fun p => p.2)) +
        trendSlope (regularize (rowsConst 7)) * (((0 : ℕ) : ℚ) + 1) +
        (if 365 ≤ (regularize (rowsConst 7)).length ∧
            dayOfYearOf (lastDate (regularize (rowsConst 7)) + 1 + ((0 : ℕ) : ℤ)) ∈
              seasonalDoys (regularize (rowsConst 7)) then
          (3 / 10) * (seasonalMean (regularize (rowsConst 7))
            (dayOfYearOf (lastDate (regularize (rowsConst 7)) + 1 + ((0 : ℕ) : ℤ))) -
            mean (lastN (min 7 (regularize (rowsConst 7)).length)
              ((regularize (rowsConst 7)).map fun p => p.2)))
        else 0)) :=
  (claim3_fallback_step_formula (rowsConst 7) 1 _
    (forecast_aqi_simple_eq_some _ 1 (by
      rw [regularize_rowsConst 7 (by norm_num), rowsConst_length]; omega))
    0 (by simp)).1

/-! ## Claim C4: forecast dates are the following consecutive days -/

theorem forecast_simple_key (rows : List (ℤ × ℚ)) (n : ℕ) (out : List ForecastEntry)
    (h : forecast_aqi_simple rows n = some out) :
    out.length = n ∧ regularize rows ≠ [] ∧
      ∀ i (hi : i < out.length), (out.get ⟨i, hi⟩).date =
        lastDate (regularize rows) + 1 + (i : ℤ) := by
  by_cases h7 : (regularize rows).length < 7
  · rw [forecast_aqi_simple, if_pos h7] at h
    cases h
  · rw [forecast_aqi_simple_eq_some rows n h7] at h
    cases h
    refine ⟨by simp, List.ne_nil_of_length_pos (by omega), ?_⟩
    intro i hi
    have hget : (((List.range n).map fun i => fallbackEntry (regularize rows) i).get
        ⟨i, hi⟩) = fallbackEntry (regularize rows) i := by
      simp [List.get_eq_getElem]
    rw [hget]
    rfl

/-- C4, confirmed: every successful forecast (through either path) has
exactly `n` entries, dated on the `n` consecutive calendar days
immediately following the last regularized historical date, all strictly
later than every historical date. -/
theorem claim4_forecast_dates (available : Bool) (fit : Option ArimaOut)
    (rows : List (ℤ × ℚ)) (n : ℕ) (out : List ForecastEntry)
    (h : forecast_aqi_arima available fit rows n = some out) :
    out.length = n ∧
      (∀ i (hi : i < out.length), (out.get ⟨i, hi⟩).date =
        lastDate (regularize rows) + 1 + (i : ℤ)) ∧
      ∀ e ∈ out, ∀ p ∈ rows, p.1 < e.date := by
  have hkey : out.length = n ∧ regularize rows ≠ [] ∧
      ∀ i (hi : i < out.length), (out.get ⟨i, hi⟩).date =
        lastDate (regularize rows) + 1 + (i : ℤ) := by
    rw [forecast_aqi_arima] at h
    by_cases hav : available = true
    · rw [if_pos hav] at h
      by_cases hemp : (regularize rows).isEmpty = true
      · rw [if_pos hemp] at h
        rw [forecast_aqi_simple,
          if_pos (by rw [List.isEmpty_iff.1 hemp]; norm_num)] at h
        cases h
      · rw [if_neg hemp] at h
        cases fit with
        | some o =>
          cases h
          refine ⟨by simp, fun hnil => hemp (by simp [hnil]), ?_⟩
          intro i hi
          simp [List.get_eq_getElem]
        | none => exact forecast_simple_key rows n out h
    · rw [if_neg hav] at h
      exact forecast_simple_key rows n out h
  obtain ⟨hlen, hne, hdates⟩ := hkey
  refine ⟨hlen, hdates, ?_⟩
  intro e he p hp
  obtain ⟨i, hie⟩ := List.mem_iff_get.1 he
  have hdate := hdates i.1 i.2
  have hfin : out.get ⟨i.1, i.2⟩ = e := by
    rw [← hie]
  have hple : p.1 ≤ lastDate (regularize rows) := by
    cases hmap : rows.map Prod.fst with
    | nil => exact absurd (regularize_of_map_nil hmap) hne
    | cons d ds => exact fst_le_lastDate_regularize hp hmap
  rw [← hfin, hdate]
  have : (0 : ℤ) ≤ (i.1 : ℤ) := Int.ofNat_nonneg i.1
  omega

/-- C4 witness: a two-step fallback forecast over seven constant days has
two entries, dated on the two days after the last historical day. -/
theorem claim4_witness :
    ((List.range 2).map fun i => fallbackEntry (regularize (rowsConst 7)) i).length = 2 := by
  have h7 : ¬ (regularize (rowsConst 7)).length < 7 := by
    rw [regularize_rowsConst 7 (by norm_num), rowsConst_length]
    omega
  exact (claim4_forecast_dates false none (rowsConst 7) 2 _
    (by rw [forecast_aqi_arima]; simpa using forecast_aqi_simple_eq_some _ 2 h7)).1

/-- An always-successful fitted-model output. -/
def okFit : ArimaOut :=
  { mean := fun _ => 100, lower := fun _ => 90, upper := fun _ => 110 }

/-- C2 counterexample: a regularized series of 3 days (fewer than 7) still
produces a forecast when the primary model is available and its fit
succeeds, so `InsufficientData` is not raised exactly when fewer than 7
regularized days exist. -/
theorem claim2_counterexample :
    (regularize (rowsConst 3)).length < 7 ∧
      (forecast_aqi_arima true (some okFit) (rowsConst 3) 5).isSome = true := by
  have hreg : regularize (rowsConst 3) = rowsConst 3 := regularize_rowsConst 3 (by norm_num)
  constructor
  · rw [hreg, rowsConst_length]
    omega
  · have hne : (regularize (rowsConst 3)).isEmpty = false := by rw [hreg]; rfl
    rw [forecast_aqi_arima]
    simp [hne]

/-! ## Claim C10: degenerate branches of the fallback are unreachable -/

/-- C10, confirmed: when the regularized series has at least 7 days, the
recent window has at least 2 values (so the sample standard deviation is
defined and the confidence range is `1.96 * recent_std`, never the
`0.2 * recent_mean` branch), and the trend window has at least 2 points
(so the slope is the least-squares slope, never the 0 default). -/
theorem claim10_no_degenerate_branches (rows : List (ℤ × ℚ))
    (h7 : 7 ≤ (regularize rows).length) :
    2 ≤ (recentWindow (regularize rows)).length ∧
      confRange (regularize rows) = 1.96 * sampleStd (recentWindow (regularize rows)) ∧
      2 ≤ (trendWindow (regularize rows)).length ∧
      trendSlope (regularize rows) = olsSlope (trendWindow (regularize rows)) := by
  have hw : 2 ≤ (recentWindow (regularize rows)).length := by
    rw [recentWindow_length]
    omega
  have ht : 2 ≤ (trendWindow (regularize rows)).length := by
    rw [trendWindow_length]
    omega
  exact ⟨hw, by rw [confRange, if_pos hw], ht, by rw [trendSlope, if_pos ht]⟩

/-- C10 witness: instantiated on seven constant days. -/
theorem claim10_witness :
    confRange (regularize (rowsConst 7)) =
      1.96 * sampleStd (recentWindow (regularize (rowsConst 7))) :=
  (claim10_no_degenerate_branches (rowsConst 7)
    (by rw [regularize_rowsConst 7 (by norm_num), rowsConst_length])).2.1

/-! ## Claim C6: forecasting 40 constant days of 100 -/

/-- C6, confirmed: with the primary model unavailable, forecasting a
regularized series of 40 constant daily values of 100 yields, at every
step, point forecast 100 with lower and upper bounds both 100: the trend
slope is 0, no seasonal pattern applies, and the sample standard
deviation of the constant window is 0, so the confidence range is 0 (the
`0.2 * mean` rule is not applied to a zero standard deviation). -/
theorem claim6_constant_series_fallback :
    forecast_aqi_simple (rowsConst 40) 30 =
      some ((List.range 30).map fun (i : ℕ) =>
        { date := 40 + (i : ℤ), aqi := 100, lower := 100, upper := 100 }) := by
  have hreg : regularize (rowsConst 40) = rowsConst 40 := regularize_rowsConst 40 (by norm_num)
  have hlen : (regularize (rowsConst 40)).length = 40 := by
    rw [hreg, rowsConst_length]
  have hsnd : (regularize (rowsConst 40)).map (fun p => p.2) = List.replicate 40 100 := by
    rw [hreg, rowsConst]
    exact map_snd_range_const 40 100
  have hwin : recentWindow (regularize (rowsConst 40)) = List.replicate 7 100 := by
    rw [recentWindow, hsnd, hlen]
    norm_num [lastN, List.drop_replicate]
  have htrend : trendWindow (regularize (rowsConst 40)) = List.replicate 30 100 := by
    rw [trendWindow, hsnd, hlen]
    norm_num [lastN, List.drop_replicate]
  have hmean : recentMean (regularize (rowsConst 40)) = 100 := by
    rw [recentMean, hwin]
    exact mean_replicate (by norm_num) 100
  have hslope : trendSlope (regularize (rowsConst 40)) = 0 := by
    rw [trendSlope, htrend]
    rw [if_pos (by norm_num)]
    exact olsSlope_replicate 30 100
  have hcr : confRange (regularize (rowsConst 40)) = 0 := by
    rw [confRange, if_pos (by rw [recentWindow_length, hlen]; norm_num), hwin]
    rw [sampleStd, sampleVar_replicate]
    norm_num
  have hlast : lastDate (regularize (rowsConst 40)) = 39 := by
    rw [hreg]
    simpa [rowsConst] using lastDate_range_map 40 (by norm_num) fun _ => (100 : ℚ)
  rw [forecast_aqi_simple_eq_some _ 30 (by omega)]
  refine congrArg some (List.map_congr_left fun i _ => ?_)
  have hbase : fallbackBase (regularize (rowsConst 40)) i
      (lastDate (regularize (rowsConst 40)) + 1 + (i : ℤ)) = 100 := by
    rw [fallbackBase]
    rw [if_neg fun hc => absurd (le_trans hc.1 (le_of_eq hlen)) (by norm_num)]
    rw [hmean, hslope]
    norm_num [clampQ]
  simp only [fallbackEntry]
  rw [hbase, hcr, hlast]
  rw [ForecastEntry.mk.injEq]
  refine ⟨by omega, rfl, by norm_num, by norm_num⟩

/-! ## Claim C5: the preparer leaves the process-wide cache unchanged -/

theorem ffillCity_allSome (acc : List (String × ℚ)) (l : List Row)
    (h : ∀ r ∈ l, r.aqi.isSome) : ffillCity acc l = l := by
  induction l generalizing acc with
  | nil => rfl
  | cons r rs ih =>
    obtain ⟨c, d, a⟩ := r
    cases a with
    | none => exact absurd (h _ (List.mem_cons_self _ _)) (by simp)
    | some v =>
      show (⟨c, d, some v⟩ : Row) :: ffillCity ((c, v) :: acc) rs = _
      rw [ih _ fun r hr => h r (List.mem_cons_of_mem _ hr)]

theorem ffillGlobal_allSome (acc : Option ℚ) (l : List Row)
    (h : ∀ r ∈ l, r.aqi.isSome) : ffillGlobal acc l = l := by
  induction l generalizing acc with
  | nil => rfl
  | cons r rs ih =>
    obtain ⟨c, d, a⟩ := r
    cases a with
    | none => exact absurd (h _ (List.mem_cons_self _ _)) (by simp)
    | some v =>
      show (⟨c, d, some v⟩ : Row) :: ffillGlobal (some v) rs = _
      rw [ih _ fun r hr => h r (List.mem_cons_of_mem _ hr)]

theorem bfillGlobal_allSome (l : List Row) (h : ∀ r ∈ l, r.aqi.isSome) :
    bfillGlobal l = l := by
  rw [bfillGlobal, ffillGlobal_allSome _ _ fun r hr => h r (List.mem_reverse.1 hr),
    List.reverse_reverse]

theorem fillnaMean_allSome (l : List Row) (h : ∀ r ∈ l, r.aqi.isSome) :
    fillnaMean l = l := by
  rw [fillnaMean]
  split
  · rfl
  · have hid : ∀ r ∈ l, ({ r with aqi := some (r.aqi.getD
        (mean (l.filterMap fun r => r.aqi))) } : Row) = r := by
      intro r hr
      obtain ⟨c, d, a⟩ := r
      obtain ⟨v, hv⟩ := Option.isSome_iff_exists.1 (h _ hr)
      simp only at hv
      rw [hv]
      rfl
    calc l.map (fun r => { r with aqi := some (r.aqi.getD
          (mean (l.filterMap fun r => r.aqi))) })
        = l.map id := List.map_congr_left hid
      _ = l := List.map_id l

theorem applyFill_allSome (l : List Row) (h : ∀ r ∈ l, r.aqi.isSome) :
    applyFill l = l := by
  rw [applyFill, ffillCity_allSome [] l h, bfillGlobal_allSome l h, fillnaMean_allSome l h]

theorem normalizeTable_allSome (raw : List Row) : ∀ r ∈ normalizeTable raw, r.aqi.isSome := by
  intro r hr
  rw [normalizeTable, List.mem_insertionSort] at hr
  exact (List.mem_filter.1 hr).2

/-- Well-formedness of the process-wide cache: it only ever holds a table
with no missing AQI, the shape the loader produces. -/
def cacheWF (s : Cache) : Prop := ∀ df, s = some df → ∀ r ∈ df, r.aqi.isSome

/-- C5, confirmed: running the Series Preparer, with or without a city
filter, leaves the process-wide cached normalized dataset exactly as the
loader left it: the in-place AQI column writes of the unfiltered path
re-write the values already present (the loader dropped every missing
AQI), and the filtered path fills an explicit copy. -/
theorem claim5_cache_unchanged (raw : List Row) (city : Option String) (s : Cache)
    (hwf : cacheWF s) :
    (load_and_preprocess_data raw city s).1 = (load_full_dataset raw s).1 := by
  rcases s with _ | df
  · by_cases hf : shouldFilter city = true
    · simp [load_and_preprocess_data, load_full_dataset, hf]
    · simp only [load_and_preprocess_data, load_full_dataset, hf, Bool.false_eq_true, if_false]
      rw [applyFill_allSome _ (normalizeTable_allSome raw)]
  · by_cases hf : shouldFilter city = true
    · simp [load_and_preprocess_data, load_full_dataset, hf]
    · simp only [load_and_preprocess_data, load_full_dataset, hf, Bool.false_eq_true, if_false]
      rw [applyFill_allSome _ (hwf df rfl)]

/-- A one-row canonical table. -/
def rawSample : List Row := [⟨"Delhi", 0, some 100⟩]

/-- C5 witness: preparing the sample table with no city filter, starting
from a cold cache, leaves the cache exactly as loading alone does. -/
theorem claim5_witness :
    (load_and_preprocess_data rawSample none none).1 = (load_full_dataset rawSample none).1 :=
  claim5_cache_unchanged rawSample none none fun _ hdf => by cases hdf

/-! ## Claim C7: semantics of the city filter -/

theorem dedupKey_subset (seen : List (String × ℤ)) (l : List Row) :
    ∀ r ∈ dedupKey seen l, r ∈ l := by
  induction l generalizing seen with
  | nil => intro r hr; cases hr
  | cons a l ih =>
    intro r hr
    by_cases hmem : (a.city, a.date) ∈ seen
    · rw [dedupKey, if_pos hmem] at hr
      exact List.mem_cons_of_mem a (ih seen r hr)
    · rw [dedupKey, if_neg hmem] at hr
      rcases List.mem_cons.1 hr with rfl | hr'
      · exact List.mem_cons_self r l
      · exact List.mem_cons_of_mem a (ih _ r hr')

theorem dedupKey_covers (l : List Row) (seen : List (String × ℤ)) (r : Row) (hr : r ∈ l)
    (hs : (r.city, r.date) ∉ seen) :
    ∃ r2 ∈ dedupKey seen l, r2.city = r.city ∧ r2.date = r.date := by
  induction l generalizing seen with
  | nil => cases hr
  | cons a l ih =>
    by_cases hmem : (a.city, a.date) ∈ seen
    · rcases List.mem_cons.1 hr with rfl | hr'
      · exact absurd hmem hs
      · rw [dedupKey, if_pos hmem]
        exact ih seen hr' hs
    · rw [dedupKey, if_neg hmem]
      rcases List.mem_cons.1 hr with rfl | hr'
      · exact ⟨r, List.mem_cons_self _ _, rfl, rfl⟩
      · by_cases hk : (r.city, r.date) = (a.city, a.date)
        · obtain ⟨hk1, hk2⟩ := Prod.mk.injEq .. ▸ hk
          exact ⟨a, List.mem_cons_self _ _, hk1.symm, hk2.symm⟩
        · have hs' : (r.city, r.date) ∉ (a.city, a.date) :: seen := fun hmem' => by
            rcases List.mem_cons.1 hmem' with h1 | h2
            · exact hk h1
            · exact hs h2
          obtain ⟨r2, hr2, hkey⟩ := ih ((a.city, a.date) :: seen) hr' hs'
          exact ⟨r2, List.mem_cons_of_mem _ hr2, hkey⟩

/-- C7, corrected: for every canonical table and every city string that is
given, nonempty, and not the `"All Cities"` sentinel, the preparer fails
exactly when no row matches the requested city case-insensitively after
trimming; on success every output row is a matching row of the table, and
every matching row survives as its `(city, date)` key. (As stated, over
every given city string, the claim is false: the empty string is given
and is not the sentinel, yet the preparer applies no filter at all, see
`claim7_counterexample`.) -/
theorem claim7_city_filter (df : List Row) (c : String)
    (hsome : ∀ r ∈ df, r.aqi.isSome) (hne : c ≠ "") (hsent : c ≠ "All Cities") :
    (preprocessResult df (some c) = none ↔ df.filter (fun r => cityMatch r c) = []) ∧
      ∀ out, preprocessResult df (some c) = some out →
        (∀ r ∈ out, r ∈ df ∧ cityMatch r c = true) ∧
        ∀ r ∈ df, cityMatch r c = true →
          ∃ r2 ∈ out, r2.city = r.city ∧ r2.date = r.date := by
  have hsf : shouldFilter (some c) = true := by
    simp [shouldFilter, hne, hsent]
  have hfsome : ∀ r ∈ df.filter (fun r => cityMatch r c), r.aqi.isSome :=
    fun r hr => hsome r (List.mem_filter.1 hr).1
  have hfill : applyFill (df.filter fun r => cityMatch r c) =
      df.filter fun r => cityMatch r c := applyFill_allSome _ hfsome
  constructor
  · rw [preprocessResult, if_pos hsf]
    by_cases hemp : (df.filter fun r => cityMatch r ((some c).getD "")).isEmpty = true
    · rw [if_pos hemp]
      simpa using List.isEmpty_iff.1 hemp
    · rw [if_neg hemp]
      constructor
      · intro hc
        cases hc
      · intro hnil
        exact absurd (by simpa using congrArg List.isEmpty hnil) hemp
  · intro out hout
    rw [preprocessResult, if_pos hsf] at hout
    by_cases hemp : (df.filter fun r => cityMatch r ((some c).getD "")).isEmpty = true
    · rw [if_pos hemp] at hout
      cases hout
    · rw [if_neg hemp] at hout
      have hout' : out = finalize (df.filter fun r => cityMatch r c) := by
        have := (Option.some.inj hout).symm
        rwa [show (some c).getD "" = c from rfl, hfill] at this
      constructor
      · intro r hr
        rw [hout', finalize, sortByDate, List.mem_insertionSort] at hr
        have hr2 := dedupKey_subset [] _ r hr
        exact ⟨(List.mem_filter.1 hr2).1, (List.mem_filter.1 hr2).2⟩
      · intro r hr hmatch
        have hrf : r ∈ df.filter fun r => cityMatch r c :=
          List.mem_filter.2 ⟨hr, hmatch⟩
        obtain ⟨r2, hr2, hkey⟩ := dedupKey_covers _ [] r hrf (by simp)
        refine ⟨r2, ?_, hkey⟩
        rw [hout', finalize, sortByDate, List.mem_insertionSort]
        exact hr2

/-- C7 witness: filtering the sample table by a differently-cased,
padded spelling of its city. -/
theorem claim7_witness :
    preprocessResult rawSample (some " DELHI ") = none ↔
      rawSample.filter (fun r => cityMatch r " DELHI ") = [] :=
  (claim7_city_filter rawSample " DELHI " (by decide) (by decide) (by decide)).1

/-- C7 counterexample: the empty city string is given and is not the
sentinel, yet no filtering happens: the non-matching Delhi row is
retained and no failure is raised, contradicting the claimed
fail-iff-no-match behavior. -/
theorem claim7_counterexample :
    rawSample.filter (fun r => cityMatch r "") = [] ∧
      preprocessResult rawSample (some "") = some rawSample := by
  constructor
  · decide
  · decide

/-! ## Claim C8: the monthly aggregation -/

instance : IsTotal (ℤ × ℚ) fun a b => a.1 ≤ b.1 := ⟨fun a b => le_total a.1 b.1⟩

instance : IsTrans (ℤ × ℚ) fun a b => a.1 ≤ b.1 := ⟨fun _ _ _ => le_trans⟩

/-- C8, confirmed: the monthly aggregation is, up to the final ordering, the
list holding exactly one entry per distinct `(year, month)` of the input
— dated the 1st of that month, valued the arithmetic mean of that month's
readings — and its output is sorted ascending by date. -/
theorem claim8_monthly_aggregation (df : List Row) :
    (calculate_monthly_aqi df).Perm
        ((df.map fun r => (yearOf r.date, monthOf r.date)).dedup.map fun k =>
          (daysFromCivil k.1 k.2 1,
            mean ((df.filter fun r =>
              (yearOf r.date, monthOf r.date) == k).filterMap fun r => r.aqi))) ∧
      List.Sorted (fun a b => a.1 ≤ b.1) (calculate_monthly_aqi df) := by
  rw [calculate_monthly_aqi]
  exact ⟨List.perm_insertionSort _ _, List.sorted_insertionSort _ _⟩

/-! ## Claim C9: the Aggregator is pure -/

/-- C9, confirmed: the daily and monthly aggregations read and write no
process-wide state — the cache passes through untouched — and repeating a
call on the same prepared table from the resulting state yields an
identical output. -/
theorem claim9_aggregator_pure (s : Cache) (df : List Row) :
    (aggDaily s df).1 = s ∧ (aggDaily s df).2 = (aggDaily (aggDaily s df).1 df).2 ∧
      (aggMonthly s df).1 = s ∧
      (aggMonthly s df).2 = (aggMonthly (aggMonthly s df).1 df).2 :=
  ⟨rfl, rfl, rfl, rfl⟩

end AQI
